import Mathlib

/-
Verification of the membership registry of mdsynthesis/core/bundle.py
(the `_BundleBackend`, `_CollectionBase` and `Bundle` classes).

The embedding is shallow: each Python method body is translated into a Lean
function over an explicit state.  Python exceptions are modelled with
`Except PyErr`; a method that cannot raise on the modelled inputs returns its
state directly.  The PyTables members node addressed through `self.handle` is
modelled as an ordered list of rows (position-addressed, `remove_row i`
deletes the row at position `i`, `nrows` is the length, iteration is in row
order), and `self.table` (the list of dicts created by
`_BundleBackend.__init__`) as a second ordered list.
-/

namespace MDS

/-- Python exception kinds observable in the modelled code. -/
inductive PyErr where
  | typeError
  | attributeError
deriving DecidableEq

/-- One member row: columns uuid, name, containertype, abspath. -/
structure MemberRecord where
  uuid : String
  name : String
  containertype : String
  abspath : String
deriving DecidableEq

/-- Fixed working directory used to model `os.path.abspath` syntactically. -/
def cwd : String := "/cwd"

/-- Models `os.path.abspath`: purely syntactic absolute-path conversion (a
path is absolute exactly when it opens with the separator; relative paths
are resolved against the fixed working directory); no existence check is
performed. -/
def os_path_abspath (location : String) : String :=
  match location.data with
  | '/' :: _ => location
  | _ => cwd ++ "/" ++ location

/-- State of a `_BundleBackend` instance.  `table` is `self.table`, the list
of dicts initialised by `__init__`.  `members` is the row list of the
`/members` node that `del_member`, `get_member` and the `get_members_*`
methods address through `self.handle`; `__init__` never creates it, so a
fresh instance is modelled with an empty row list. -/
structure BackendState where
  table : List MemberRecord
  members : List MemberRecord
deriving DecidableEq

/-- A fresh `_BundleBackend()`: `self.table = list()`. -/
def freshBackend : BackendState := ⟨[], []⟩

/-- `_BundleBackend.add_member`.  The body computes
`index = [ self.table.index(item) for item in self.table if item['uuid'] == uuid ]`;
when `index` is non-empty the next statement evaluates `self.table[index]`
with `index` a Python list, which raises `TypeError` (list indices must be
integers); otherwise a new dict is appended with the absolute location. -/
def add_member (s : BackendState) (uuid name containertype location : String) :
    Except PyErr BackendState :=
  let index := (s.table.filter (fun item => item.uuid == uuid)).map
    (fun item => s.table.indexOf item)
  if index = [] then
    .ok { s with table :=
      s.table ++ [⟨uuid, name, containertype, os_path_abspath location⟩] }
  else
    .error .typeError

/-- Row numbers `row.nrow` of the rows whose uuid is in the given uuid set,
collected in row-iteration order (models the nested for-loops of
`del_member` that build `rowlist`). -/
def matching_rows (uuids : List String) : List MemberRecord → List Nat
  | [] => []
  | r :: rs =>
    if uuids.contains r.uuid then 0 :: (matching_rows uuids rs).map (· + 1)
    else (matching_rows uuids rs).map (· + 1)

/-- The deletion loop of `del_member`: `for i in rowlist: table.remove_row(i-j);
j = j+1`, where `remove_row n` deletes the row at position `n`. -/
def remove_rows : List MemberRecord → List Nat → Nat → List MemberRecord
  | rows, [], _ => rows
  | rows, i :: rest, j => remove_rows (rows.eraseIdx (i - j)) rest (j + 1)

/-- `_BundleBackend.del_member`.  With `all=True` the members table is removed
and recreated empty.  Otherwise the uuid arguments are deduplicated into a
set, the matching row numbers are collected, and either the purge path is
taken (when every row matches, a PyTables limitation) or the rows are deleted
in ascending order with the shift-compensating counter `j`. -/
def del_member (s : BackendState) (uuid : List String) (all : Bool) :
    BackendState :=
  if all then
    { s with members := [] }
  else
    let uuids := uuid.dedup
    let rowlist := matching_rows uuids s.members
    if rowlist.length = s.members.length then
      { s with members := [] }
    else
      { s with members :=
        remove_rows s.members (rowlist.mergeSort (fun a b => a ≤ b)) 0 }

/-- Log levels used by the modelled logger calls. -/
inductive LogLevel where
  | info
deriving DecidableEq

/-- `_BundleBackend.get_member`: selects the rows matching the uuid
(`table.where`), returns the column values of the first match as a record, or
logs at informational level and returns `None` when there is no match. -/
def get_member (s : BackendState) (uuid : String) :
    Option MemberRecord × List (LogLevel × String) :=
  match matching_rows [uuid] s.members with
  | [] => (none, [(.info, "No such member in this Group.")])
  | n :: _ => (s.members.get? n, [])

/-- `_BundleBackend.get_members_uuid`: uuid column in row order. -/
def get_members_uuid (s : BackendState) : List String :=
  s.members.map (·.uuid)

/-- `_BundleBackend.get_members_name`: name column in row order. -/
def get_members_name (s : BackendState) : List String :=
  s.members.map (·.name)

/-- `_BundleBackend.get_members_containertype`: containertype column in row
order. -/
def get_members_containertype (s : BackendState) : List String :=
  s.members.map (·.containertype)

/-- Column lookup `x[path]` on a row of the members schema; an unknown column
name yields no value. -/
def row_field (r : MemberRecord) (c : String) : Option String :=
  if c = "uuid" then some r.uuid
  else if c = "name" then some r.name
  else if c = "containertype" then some r.containertype
  else if c = "abspath" then some r.abspath
  else none

/-- `_BundleBackend.get_members_location`: the `x[path]` column in row order
(the caller passes `abspath` by default). -/
def get_members_location (s : BackendState) (path : String) :
    List (Option String) :=
  s.members.map (fun r => row_field r path)

/-- An entity handle (`mds.Container`): read-only identity fields. -/
structure Container where
  uuid : String
  name : String
  containertype : String
  location : String
deriving DecidableEq

/-- Arguments accepted by the add methods: a container object, a path string,
a plain list, a tuple (or other non-list iterable aggregate), or any other
object. -/
inductive Item where
  | cont : Container → Item
  | pathItem : String → Item
  | listOf : List Item → Item
  | tupleOf : List Item → Item
  | other : Item

/-- External collaborators: `os.path.exists` on path strings and
`filesystem.path2container`. -/
structure Env where
  path_exists : String → Bool
  path2container : String → List Container

/-- State of a `Bundle` instance: the backend created by `__init__`, and the
`_uuids` / `_containers` attributes, each `none` while never assigned (an
attribute access then raises `AttributeError`). -/
structure BundleState where
  backend : BackendState
  uuids : Option (List String)
  containers : Option (List Container)
deriving DecidableEq

/-- The inner loop of `Bundle.add` over the containers resolved from a path:
each uuid not yet in `self._uuids` has its container collected into
`outconts` and its uuid appended to `self._uuids`; reading `self._uuids`
raises `AttributeError` when the attribute was never assigned. -/
def bundle_add_conts : BundleState → List Container → List Container →
    Except PyErr (BundleState × List Container)
  | s, [], out => .ok (s, out)
  | s, c :: cs, out =>
    match s.uuids with
    | none => .error .attributeError
    | some us =>
      if us.contains c.uuid then bundle_add_conts s cs out
      else bundle_add_conts { s with uuids := some (us ++ [c.uuid]) } cs
        (out ++ [c])

mutual

/-- `Bundle.add`: runs the argument loop collecting `outconts`, then extends
`self._containers` with it (raising `AttributeError` when that attribute was
never assigned).  The backend is never consulted or updated. -/
def bundle_add (env : Env) (s : BundleState) (items : List Item) :
    Except PyErr BundleState :=
  match bundle_add_loop env s items [] with
  | .error e => .error e
  | .ok (s2, out) =>
    match s2.containers with
    | none => .error .attributeError
    | some cs => .ok { s2 with containers := some (cs ++ out) }

/-- The argument loop of `Bundle.add`.  Only a plain list is treated as a
nested collection (recursive `self.add(*container)`); a container object is
deduplicated against `self._uuids`; a path string is given to
`os.path.exists` and, when it exists, its resolved containers are run
through the dedup loop; any other argument — a tuple, another Bundle or
Members aggregate, any non-string object — also reaches `os.path.exists`,
which raises `TypeError` on a non-string (Python 2 `genericpath.exists`
catches only `os.error`). -/
def bundle_add_loop (env : Env) : BundleState → List Item → List Container →
    Except PyErr (BundleState × List Container)
  | s, [], out => .ok (s, out)
  | s, .listOf its :: rest, out =>
    match bundle_add env s its with
    | .error e => .error e
    | .ok s2 => bundle_add_loop env s2 rest out
  | s, .cont c :: rest, out =>
    match s.uuids with
    | none => .error .attributeError
    | some us =>
      if us.contains c.uuid then bundle_add_loop env s rest out
      else bundle_add_loop env { s with uuids := some (us ++ [c.uuid]) } rest
        (out ++ [c])
  | s, .pathItem p :: rest, out =>
    if env.path_exists p then
      match bundle_add_conts s (env.path2container p) out with
      | .error e => .error e
      | .ok (s2, out2) => bundle_add_loop env s2 rest out2
    else bundle_add_loop env s rest out
  | _, .tupleOf _ :: _, _ => .error .typeError
  | _, .other :: _, _ => .error .typeError

end

/-- `Bundle.__init__`: assigns `self.backend = _BundleBackend()` and then
calls `self.add(*containers)`; the `_uuids` and `_containers` attributes have
never been assigned at that point (nor anywhere else in the class). -/
def bundle_init (env : Env) (items : List Item) : Except PyErr BundleState :=
  bundle_add env ⟨freshBackend, none, none⟩ items

/-- The second loop of `_CollectionBase.add`:
`self.backend.add_member(...)` for each collected container. -/
def add_members : BackendState → List Container → Except PyErr BackendState
  | s, [] => .ok s
  | s, c :: cs =>
    match add_member s c.uuid c.name c.containertype c.location with
    | .error e => .error e
    | .ok s2 => add_members s2 cs

mutual

/-- `_CollectionBase.add`: runs the argument loop collecting `outconts`, then
calls `self.backend.add_member` on each collected container, with no
deduplication of its own. -/
def collection_add (env : Env) (s : BackendState) (items : List Item) :
    Except PyErr BackendState :=
  match collection_add_loop env s items [] with
  | .error e => .error e
  | .ok (s2, out) => add_members s2 out

/-- The argument loop of `_CollectionBase.add`: lists, tuples, Bundles and
Members aggregates are all treated as nested collections (recursive
`self.add(*container)`, which runs its own `add_member` loop against the
shared backend); a container object is collected directly; a path string is
given to `os.path.exists` and its resolved containers are collected; any
other non-string argument reaches `os.path.exists`, which raises `TypeError`
on a non-string (Python 2 `genericpath.exists` catches only `os.error`). -/
def collection_add_loop (env : Env) :
    BackendState → List Item → List Container →
    Except PyErr (BackendState × List Container)
  | s, [], out => .ok (s, out)
  | s, .listOf its :: rest, out =>
    match collection_add env s its with
    | .error e => .error e
    | .ok s2 => collection_add_loop env s2 rest out
  | s, .tupleOf its :: rest, out =>
    match collection_add env s its with
    | .error e => .error e
    | .ok s2 => collection_add_loop env s2 rest out
  | s, .cont c :: rest, out => collection_add_loop env s rest (out ++ [c])
  | s, .pathItem p :: rest, out =>
    if env.path_exists p then
      collection_add_loop env s rest (out ++ env.path2container p)
    else collection_add_loop env s rest out
  | _, .other :: _, _ => .error .typeError

end

theorem matching_rows_pairwise (us : List String) (ms : List MemberRecord) :
    (matching_rows us ms).Pairwise (· < ·) := by
  induction ms with
  | nil => simp [matching_rows]
  | cons r rs ih =>
    simp only [matching_rows]
    split
    · refine List.Pairwise.cons ?_ ?_
      · intro b hb
        simp only [List.mem_map] at hb
        obtain ⟨a, _, rfl⟩ := hb
        omega
      · exact (List.pairwise_map).2 (ih.imp (fun h => by omega))
    · exact (List.pairwise_map).2 (ih.imp (fun h => by omega))

theorem matching_rows_length (us : List String) (ms : List MemberRecord) :
    (matching_rows us ms).length = ms.countP (fun r => us.contains r.uuid) := by
  induction ms with
  | nil => rfl
  | cons r rs ih =>
    simp only [matching_rows, List.countP_cons]
    split <;> rename_i h <;> simp [ih, h]

theorem matching_rows_congr {us1 us2 : List String}
    (h : ∀ x, us1.contains x = us2.contains x) (ms : List MemberRecord) :
    matching_rows us1 ms = matching_rows us2 ms := by
  induction ms with
  | nil => rfl
  | cons r rs ih => simp only [matching_rows, h, ih]

theorem dedup_contains (l : List String) (a : String) :
    (l.dedup).contains a = l.contains a := by
  by_cases h : a ∈ l <;> simp [List.contains, List.elem_iff, List.mem_dedup, h]

theorem remove_rows_shift (l : List Nat) :
    ∀ (xs : List MemberRecord) (j : Nat),
      remove_rows xs (l.map (· + 1)) (j + 1) = remove_rows xs l j := by
  induction l with
  | nil => intro xs j; rfl
  | cons i rest ih =>
    intro xs j
    have h1 : i + 1 - (j + 1) = i - j := by omega
    simp only [List.map_cons, remove_rows, h1]
    exact ih _ _

theorem remove_rows_cons (x : MemberRecord) :
    ∀ (l : List Nat) (xs : List MemberRecord) (j : Nat),
      l.Pairwise (· < ·) → (∀ i ∈ l, j ≤ i) →
      remove_rows (x :: xs) (l.map (· + 1)) j = x :: remove_rows xs l j := by
  intro l
  induction l with
  | nil => intro xs j _ _; rfl
  | cons i rest ih =>
    intro xs j hp hge
    have hji : j ≤ i := hge i (List.mem_cons_self ..)
    have h1 : i + 1 - j = (i - j) + 1 := by omega
    rw [List.pairwise_cons] at hp
    simp only [List.map_cons, remove_rows, h1, List.eraseIdx_cons_succ]
    refine ih _ _ hp.2 ?_
    intro i2 hi2
    have := hp.1 i2 hi2
    omega

theorem remove_rows_matching (us : List String) (ms : List MemberRecord) :
    remove_rows ms (matching_rows us ms) 0 =
      ms.filter (fun r => !(us.contains r.uuid)) := by
  induction ms with
  | nil => rfl
  | cons r rs ih =>
    by_cases h : us.contains r.uuid
    · simp only [matching_rows, h, if_pos, List.filter_cons]
      simp only [remove_rows, Nat.sub_zero, List.eraseIdx_cons_zero]
      rw [remove_rows_shift, ih]
      simp [h]
    · have h' : us.contains r.uuid = false := by simpa using h
      have hm : matching_rows us (r :: rs) =
          List.map (· + 1) (matching_rows us rs) := by
        simp only [matching_rows, h', Bool.false_eq_true, if_false]
      rw [hm, remove_rows_cons r _ _ 0 (matching_rows_pairwise us rs) (by simp),
        ih, List.filter_cons]
      have hmem : r.uuid ∉ us := by simpa using h
      simp [hmem]

theorem del_member_members (s : BackendState) (ids : List String) :
    (del_member s ids false).members =
      s.members.filter (fun r => !(ids.contains r.uuid)) := by
  have hcongr : ∀ x, (ids.dedup).contains x = ids.contains x :=
    fun x => dedup_contains ids x
  have hrows : matching_rows ids.dedup s.members = matching_rows ids s.members :=
    matching_rows_congr hcongr s.members
  unfold del_member
  simp only [Bool.false_eq_true, if_false, hrows]
  by_cases hlen : (matching_rows ids s.members).length = s.members.length
  · simp only [hlen, if_pos]
    have hall : ∀ a ∈ s.members, (ids.contains a.uuid) = true := by
      rw [matching_rows_length] at hlen
      exact List.countP_eq_length.mp hlen
    rw [eq_comm, List.filter_eq_nil_iff]
    intro a ha
    simp only [Bool.not_eq_true', Bool.not_eq_false]
    exact hall a ha
  · simp only [hlen, if_neg, if_false]
    have hsorted : (matching_rows ids s.members).Pairwise
        (fun a b => decide (a ≤ b) = true) :=
      (matching_rows_pairwise ids s.members).imp
        (fun h => by simp [Nat.le_of_lt h])
    rw [List.mergeSort_of_sorted hsorted, remove_rows_matching]

theorem bundle_add_conts_none (s : BundleState) (cs out : List Container)
    (hu : s.uuids = none) :
    bundle_add_conts s cs out = .error .attributeError ∨
    bundle_add_conts s cs out = .ok (s, out) := by
  cases cs with
  | nil => right; rfl
  | cons c cs => left; simp [bundle_add_conts, hu]

theorem bundle_add_raises_aux (n : Nat) : ∀ items : List Item,
    sizeOf items ≤ n →
    (∀ (env : Env) (s : BundleState), s.uuids = none → s.containers = none →
      bundle_add env s items = .error .attributeError ∨
      bundle_add env s items = .error .typeError) ∧
    (∀ (env : Env) (s : BundleState) (out : List Container),
      s.uuids = none → s.containers = none →
      bundle_add_loop env s items out = .error .attributeError ∨
      bundle_add_loop env s items out = .error .typeError ∨
      bundle_add_loop env s items out = .ok (s, out)) := by
  induction n with
  | zero =>
    intro items hsz
    exact absurd hsz (by cases items <;> simp)
  | succ n ih =>
    intro items hsz
    have hloop : ∀ (env : Env) (s : BundleState) (out : List Container),
        s.uuids = none → s.containers = none →
        bundle_add_loop env s items out = .error .attributeError ∨
        bundle_add_loop env s items out = .error .typeError ∨
        bundle_add_loop env s items out = .ok (s, out) := by
      intro env s out hu hc
      match items, hsz with
      | [], _ => right; right; simp [bundle_add_loop]
      | .cont c :: rest, hsz => left; simp [bundle_add_loop, hu]
      | .listOf its :: rest, hsz =>
        have hits : sizeOf its ≤ n := by simp at hsz; omega
        rcases (ih its hits).1 env s hu hc with hadd | hadd
        · left; simp [bundle_add_loop, hadd]
        · right; left; simp [bundle_add_loop, hadd]
      | .pathItem p :: rest, hsz =>
        have hrest : sizeOf rest ≤ n := by simp at hsz; omega
        have hr := (ih rest hrest).2 env s out hu hc
        by_cases hex : env.path_exists p = true
        · rcases bundle_add_conts_none s (env.path2container p) out hu
            with hcn | hcn
          · left; simp [bundle_add_loop, hex, hcn]
          · rcases hr with hr | hr | hr
            · left; simp [bundle_add_loop, hex, hcn, hr]
            · right; left; simp [bundle_add_loop, hex, hcn, hr]
            · right; right; simp [bundle_add_loop, hex, hcn, hr]
        · rcases hr with hr | hr | hr
          · left; simp [bundle_add_loop, hex, hr]
          · right; left; simp [bundle_add_loop, hex, hr]
          · right; right; simp [bundle_add_loop, hex, hr]
      | .tupleOf its :: rest, hsz => right; left; simp [bundle_add_loop]
      | .other :: rest, hsz => right; left; simp [bundle_add_loop]
    refine ⟨?_, hloop⟩
    intro env s hu hc
    rcases hloop env s [] hu hc with h | h | h
    · left; simp [bundle_add, h]
    · right; simp [bundle_add, h]
    · left; simp [bundle_add, h, hc]

theorem bundle_add_conts_backend : ∀ (cs : List Container) (s : BundleState)
    (out : List Container) (r : BundleState) (out2 : List Container),
    bundle_add_conts s cs out = .ok (r, out2) → r.backend = s.backend := by
  intro cs
  induction cs with
  | nil =>
    intro s out r out2 h
    simp only [bundle_add_conts, Except.ok.injEq, Prod.mk.injEq] at h
    rw [← h.1]
  | cons c cs ih =>
    intro s out r out2 h
    simp only [bundle_add_conts] at h
    cases hus : s.uuids
    · simp only [hus] at h
      exact Except.noConfusion h
    · simp only [hus] at h
      split at h
      · exact ih _ _ _ _ h
      · exact (ih _ _ _ _ h).trans rfl

theorem bundle_add_backend_aux (n : Nat) : ∀ items : List Item,
    sizeOf items ≤ n →
    (∀ (env : Env) (s r : BundleState),
      bundle_add env s items = .ok r → r.backend = s.backend) ∧
    (∀ (env : Env) (s : BundleState) (out : List Container) (r : BundleState)
      (out2 : List Container),
      bundle_add_loop env s items out = .ok (r, out2) →
      r.backend = s.backend) := by
  induction n with
  | zero => intro items hsz; exact absurd hsz (by cases items <;> simp)
  | succ n ih =>
    intro items hsz
    have hloop : ∀ (env : Env) (s : BundleState) (out : List Container)
        (r : BundleState) (out2 : List Container),
        bundle_add_loop env s items out = .ok (r, out2) →
        r.backend = s.backend := by
      intro env s out r out2 h
      match items, hsz with
      | [], _ =>
        simp only [bundle_add_loop, Except.ok.injEq, Prod.mk.injEq] at h
        rw [← h.1]
      | .cont c :: rest, hsz =>
        have hrest : sizeOf rest ≤ n := by simp at hsz; omega
        simp only [bundle_add_loop] at h
        cases hus : s.uuids
        · simp only [hus] at h
          exact Except.noConfusion h
        · simp only [hus] at h
          split at h
          · exact (ih rest hrest).2 _ _ _ _ _ h
          · exact ((ih rest hrest).2 _ _ _ _ _ h).trans rfl
      | .listOf its :: rest, hsz =>
        have hits : sizeOf its ≤ n := by simp at hsz; omega
        have hrest : sizeOf rest ≤ n := by simp at hsz; omega
        simp only [bundle_add_loop] at h
        cases hadd : bundle_add env s its
        · simp only [hadd] at h
          exact Except.noConfusion h
        · rename_i s2
          simp only [hadd] at h
          have h1 := (ih its hits).1 env s s2 hadd
          have h2 := (ih rest hrest).2 env s2 out r out2 h
          rw [h2, h1]
      | .pathItem p :: rest, hsz =>
        have hrest : sizeOf rest ≤ n := by simp at hsz; omega
        simp only [bundle_add_loop] at h
        split at h
        · cases hcn : bundle_add_conts s (env.path2container p) out
          · simp only [hcn] at h
            exact Except.noConfusion h
          · rename_i pr
            obtain ⟨s2, out3⟩ := pr
            simp only [hcn] at h
            have h1 := bundle_add_conts_backend _ _ _ _ _ hcn
            have h2 := (ih rest hrest).2 env s2 out3 r out2 h
            rw [h2, h1]
        · exact (ih rest hrest).2 _ _ _ _ _ h
      | .tupleOf its :: rest, hsz =>
        simp only [bundle_add_loop] at h
        exact Except.noConfusion h
      | .other :: rest, hsz =>
        simp only [bundle_add_loop] at h
        exact Except.noConfusion h
    refine ⟨?_, hloop⟩
    intro env s r h
    simp only [bundle_add] at h
    cases hl : bundle_add_loop env s items []
    · simp only [hl] at h
      exact Except.noConfusion h
    · rename_i pr
      obtain ⟨s2, out⟩ := pr
      simp only [hl] at h
      cases hc : s2.containers
      · simp only [hc] at h
        exact Except.noConfusion h
      · simp only [hc, Except.ok.injEq] at h
        rw [← h]
        exact hloop env s [] s2 out hl

theorem matching_rows_nil_of_absent (us : List String)
    (ms : List MemberRecord) (h : ∀ r ∈ ms, us.contains r.uuid = false) :
    matching_rows us ms = [] := by
  induction ms with
  | nil => rfl
  | cons r rs ih =>
    simp only [matching_rows, h r (by simp), Bool.false_eq_true, if_false]
    simp [ih (fun a ha => h a (by simp [ha]))]

instance {ε α : Type} [DecidableEq ε] [DecidableEq α] :
    DecidableEq (Except ε α) := fun a b =>
  match a, b with
  | .ok x, .ok y =>
    if h : x = y then .isTrue (by rw [h])
    else .isFalse (fun he => h (Except.ok.inj he))
  | .ok _, .error _ => .isFalse (fun he => Except.noConfusion he)
  | .error _, .ok _ => .isFalse (fun he => Except.noConfusion he)
  | .error x, .error y =>
    if h : x = y then .isTrue (by rw [h])
    else .isFalse (fun he => h (Except.error.inj he))

/-- Sample container used by the concrete scenarios. -/
def sampleCont : Container := ⟨"u1", "n1", "Sim", "/loc"⟩

/-- Environment in which no filesystem path exists and path resolution
returns nothing. -/
def emptyEnv : Env := ⟨fun _ => false, fun _ => []⟩

/-- C1: the spec (and the docstring of `add_member` itself) says that adding
an id already present in the transient backend updates only that record's
stored location and never raises for well-formed input.  The code instead
evaluates `self.table[index]` with `index` a Python list, raising
`TypeError`: re-adding uuid u1 to a table that holds u1 raises instead of
updating the location. -/
theorem c1_add_member_present_raises :
    add_member ⟨[⟨"u1", "n1", "Sim", "/a"⟩], []⟩ "u1" "n1" "Sim" "/b" =
      .error .typeError := by decide

/-- C3: a non-purge `del_member` call removes exactly the records whose id is
in the supplied id set (ids not found are ignored without error) and keeps
the remaining records in their original relative order; in particular, with
rows 1, 2, 3 in the members table, `del_member(2)` leaves the id listing
`[1, 3]` in that order. -/
theorem c3_del_member_exact (s : BackendState) (ids : List String) :
    (del_member s ids false).members =
      s.members.filter (fun r => !(ids.contains r.uuid)) ∧
    get_members_uuid (del_member ⟨[], [⟨"1", "a", "Sim", "/a"⟩,
      ⟨"2", "b", "Sim", "/b"⟩, ⟨"3", "c", "Sim", "/c"⟩]⟩ ["2"] false) =
      ["1", "3"] := by
  refine ⟨del_member_members s ids, ?_⟩
  simp only [get_members_uuid, del_member_members]
  decide

/-- C4: the spec says that after `del_member(purge=true)` the store accepts a
fresh `add_member` as if the id were new.  In the code, the purge only
truncates the members node addressed through `self.handle`, while
`add_member` consults `self.table`, which the purge leaves untouched; after
add(u1) and a purge, re-adding u1 hits the stale `self.table` entry and the
list-index slip of `add_member`, raising `TypeError` instead of appending as
new. -/
theorem c4_purge_then_add_raises :
    add_member freshBackend "u1" "n1" "Sim" "/loc" =
      .ok ⟨[⟨"u1", "n1", "Sim", "/loc"⟩], []⟩ ∧
    del_member ⟨[⟨"u1", "n1", "Sim", "/loc"⟩], []⟩ [] true =
      ⟨[⟨"u1", "n1", "Sim", "/loc"⟩], []⟩ ∧
    get_members_uuid ⟨[⟨"u1", "n1", "Sim", "/loc"⟩], []⟩ = [] ∧
    add_member ⟨[⟨"u1", "n1", "Sim", "/loc"⟩], []⟩ "u1" "n1" "Sim" "/loc" =
      .error .typeError := by decide

/-- C5: the spec says `add_member(id, name, kind, loc)` followed by
`get_member(id)` returns a record matching the inputs.  In the code,
`add_member` appends to `self.table` while `get_member` reads the members
node addressed through `self.handle` (which a `_BundleBackend` never even
creates), so the freshly added member is invisible to `get_member`, which
returns `None` after logging, not the record. -/
theorem c5_round_trip_fails :
    add_member freshBackend "u1" "n1" "Sim" "data" =
      .ok ⟨[⟨"u1", "n1", "Sim", "/cwd/data"⟩], []⟩ ∧
    get_member ⟨[⟨"u1", "n1", "Sim", "/cwd/data"⟩], []⟩ "u1" =
      (none, [(.info, "No such member in this Group.")]) := by decide

/-- C6: `get_member` on an id with no matching row returns an explicit
absent result (`None`) rather than raising, after logging the condition at
informational level. -/
theorem c6_get_member_absent (s : BackendState) (uuid : String)
    (h : uuid ∉ s.members.map (fun r => r.uuid)) :
    get_member s uuid =
      (none, [(.info, "No such member in this Group.")]) := by
  have h' : ∀ r ∈ s.members, ([uuid].contains r.uuid) = false := by
    intro r hr
    have hne : r.uuid ≠ uuid := fun he => h (List.mem_map.mpr ⟨r, hr, he⟩)
    simp [hne]
  unfold get_member
  rw [matching_rows_nil_of_absent _ _ h']

/-- Witness for C6 at a concrete table and unknown id. -/
theorem c6_witness :
    ("zz" ∉ (BackendState.mk [] [⟨"1", "a", "Sim", "/a"⟩]).members.map
      (fun r => r.uuid)) ∧
    get_member ⟨[], [⟨"1", "a", "Sim", "/a"⟩]⟩ "zz" =
      (none, [(.info, "No such member in this Group.")]) :=
  ⟨by decide, c6_get_member_absent ⟨[], [⟨"1", "a", "Sim", "/a"⟩]⟩ "zz"
    (by decide)⟩

/-- Modelled from the spec: the `File._write_state` decorator named on
`add_member` and `del_member` lives in persistence.py, which is not among the
sources; per the spec every mutating operation executes inside a write
transaction wrapping the entire operation body, committing the mutated row
set on success and leaving the stored row set exactly as before the call on
failure. -/
def write_state (body : BackendState → Except PyErr BackendState)
    (s : BackendState) : Except PyErr Unit × BackendState :=
  match body s with
  | .ok s2 => (.ok (), s2)
  | .error e => (.error e, s)

/-- C8: each mutating operation under the write-transaction wrapper is
atomic: it either succeeds and commits exactly the operation's resulting row
set, or fails and leaves the stored state exactly as it was before the
call. -/
theorem c8_write_transaction_atomic (s : BackendState) (u n k l : String)
    (ids : List String) (p : Bool) :
    ((∃ s2, add_member s u n k l = .ok s2 ∧
        write_state (fun t => add_member t u n k l) s = (.ok (), s2)) ∨
      (∃ e, add_member s u n k l = .error e ∧
        write_state (fun t => add_member t u n k l) s = (.error e, s))) ∧
    write_state (fun t => .ok (del_member t ids p)) s =
      (.ok (), del_member s ids p) := by
  constructor
  · cases h : add_member s u n k l with
    | ok s2 => exact Or.inl ⟨s2, rfl, by simp [write_state, h]⟩
    | error e => exact Or.inr ⟨e, rfl, by simp [write_state, h]⟩
  · rfl

/-- The four list operations agree: equal lengths, and the entries at every
index all describe the same member record, in the table's row order. -/
def lists_consistent (s : BackendState) : Prop :=
  (get_members_name s).length = (get_members_uuid s).length ∧
  (get_members_containertype s).length = (get_members_uuid s).length ∧
  (get_members_location s "abspath").length = (get_members_uuid s).length ∧
  ∀ i : Nat, i < (get_members_uuid s).length →
    ∃ r : MemberRecord, s.members[i]? = some r ∧
      (get_members_uuid s)[i]? = some r.uuid ∧
      (get_members_name s)[i]? = some r.name ∧
      (get_members_containertype s)[i]? = some r.containertype ∧
      (get_members_location s "abspath")[i]? = some (some r.abspath)

theorem lists_consistent_all (s : BackendState) : lists_consistent s := by
  refine ⟨by simp [get_members_name, get_members_uuid],
    by simp [get_members_containertype, get_members_uuid],
    by simp [get_members_location, get_members_uuid], ?_⟩
  intro i hi
  simp only [get_members_uuid, List.length_map] at hi
  refine ⟨s.members[i], ?_, ?_, ?_, ?_, ?_⟩ <;>
    simp [get_members_uuid, get_members_name, get_members_containertype,
      get_members_location, List.getElem?_map, List.getElem?_eq_getElem hi,
      row_field]

/-- C7: the four list operations return sequences of equal length in the
table's insertion order whose i-th elements describe the same underlying
record, in every reachable state; in particular the consistency is preserved
by every `del_member` and every successful `add_member`. -/
theorem c7_list_ops_consistent (s : BackendState) (u n k l : String)
    (ids : List String) (p : Bool) :
    lists_consistent s ∧
    lists_consistent (del_member s ids p) ∧
    ∀ s2, add_member s u n k l = .ok s2 → lists_consistent s2 :=
  ⟨lists_consistent_all s, lists_consistent_all _,
    fun s2 _ => lists_consistent_all s2⟩

/-- Witness for C7 at a concrete table, removal and successful add. -/
theorem c7_witness :
    lists_consistent ⟨[], [⟨"1", "a", "Sim", "/a"⟩]⟩ ∧
    lists_consistent (del_member ⟨[], [⟨"1", "a", "Sim", "/a"⟩]⟩ ["1"] false) ∧
    lists_consistent ⟨[⟨"u1", "n1", "Sim", "/loc"⟩], []⟩ :=
  ⟨(c7_list_ops_consistent ⟨[], [⟨"1", "a", "Sim", "/a"⟩]⟩ "u1" "n1" "Sim"
      "/loc" ["1"] false).1,
   (c7_list_ops_consistent ⟨[], [⟨"1", "a", "Sim", "/a"⟩]⟩ "u1" "n1" "Sim"
      "/loc" ["1"] false).2.1,
   (c7_list_ops_consistent freshBackend "u1" "n1" "Sim" "/loc" [] false).2.2
      ⟨[⟨"u1", "n1", "Sim", "/loc"⟩], []⟩ (by decide)⟩

/-- C9 as stated is false on the code: it asserts an `AttributeError` for
every argument list, but an argument that is neither a list, a container,
nor a string — here a tuple wrapping a container — reaches
`os.path.exists`, which raises `TypeError` on a non-string (Python 2
`genericpath.exists` catches only `os.error`), before the
`self._containers.extend` that would raise `AttributeError` is ever
reached. -/
theorem c9_counterexample :
    bundle_init emptyEnv [.tupleOf [.cont sampleCont]] =
      .error .typeError := by
  unfold bundle_init
  simp [bundle_add, bundle_add_loop]

/-- C9 amended: for every argument list (including the empty one),
constructing a Bundle raises before any membership is registered — an
`AttributeError` from the never-assigned `_uuids` / `_containers`
attributes on the handled argument kinds, or a `TypeError` from
`os.path.exists` on a non-string argument; either way no Bundle instance
with observable membership is constructible through the public
constructor. -/
theorem c9_bundle_init_raises (env : Env) (items : List Item) :
    bundle_init env items = .error .attributeError ∨
    bundle_init env items = .error .typeError := by
  unfold bundle_init
  exact (bundle_add_raises_aux (sizeOf items) items le_rfl).1 env _ rfl rfl

/-- C2 as stated is false on the code: on a Bundle with initialised member
attributes, `Bundle.add` of a novel entity appends the handle to
`self._containers` and records its uuid in `self._uuids`, but never invokes
`MembershipTable.add_member` — the backend table stays empty, although an
`add_member` call with the entity's identity fields would have appended a
record to it. -/
theorem c2_counterexample :
    bundle_add emptyEnv ⟨freshBackend, some [], some []⟩ [.cont sampleCont] =
      .ok ⟨freshBackend, some ["u1"], some [sampleCont]⟩ ∧
    add_member freshBackend "u1" "n1" "Sim" "/loc" =
      .ok ⟨[⟨"u1", "n1", "Sim", "/loc"⟩], []⟩ ∧
    (BundleState.mk freshBackend (some ["u1"]) (some [sampleCont])).backend.table
      = [] := by
  refine ⟨?_, by decide, rfl⟩
  simp [bundle_add, bundle_add_loop, sampleCont, emptyEnv, freshBackend]

/-- Specification helper for the dedup loop of `Bundle.add`: from a resolved
container sequence and the current seen-set, the ids and handles, in order,
that the loop accepts as novel (a handle whose id is already seen — or was
seen earlier in the same sequence — is skipped). -/
def resolve_new (us : List String) : List Container →
    List String × List Container
  | [] => ([], [])
  | c :: cs =>
    if us.contains c.uuid then resolve_new us cs
    else (c.uuid :: (resolve_new (us ++ [c.uuid]) cs).1,
          c :: (resolve_new (us ++ [c.uuid]) cs).2)

theorem bundle_add_conts_spec (b : BackendState)
    (co : Option (List Container)) : ∀ (cs : List Container)
    (us : List String) (out : List Container),
    bundle_add_conts ⟨b, some us, co⟩ cs out =
      .ok (⟨b, some (us ++ (resolve_new us cs).1), co⟩,
        out ++ (resolve_new us cs).2) := by
  intro cs
  induction cs with
  | nil => intro us out; simp [bundle_add_conts, resolve_new]
  | cons c cs ih =>
    intro us out
    by_cases h : c.uuid ∈ us
    · simp [bundle_add_conts, resolve_new, h, ih]
    · simp [bundle_add_conts, resolve_new, h, ih, List.append_assoc]

/-- C2 amended: for every Bundle.add call on a Bundle whose `_uuids` and
`_containers` attributes are initialised, every entity handle resolved from
its arguments — given directly, resolved from an existing filesystem path,
or reached through a nested plain list — is appended to the ordered member
sequence with its id recorded in the seen-set when its id is not already
present, and is silently skipped (membership length and order unchanged)
when it is; but `MembershipTable.add_member` is never invoked by
`Bundle.add` — the backend is left untouched. -/
theorem c2_bundle_add_amended (env : Env) (s : BundleState)
    (us : List String) (cs : List Container) (c : Container) (p : String)
    (hu : s.uuids = some us) (hc : s.containers = some cs) :
    (c.uuid ∈ us → bundle_add env s [.cont c] = .ok s) ∧
    (c.uuid ∉ us → bundle_add env s [.cont c] =
      .ok { s with uuids := some (us ++ [c.uuid]),
                   containers := some (cs ++ [c]) }) ∧
    (env.path_exists p = true → bundle_add env s [.pathItem p] =
      .ok { s with
        uuids := some (us ++ (resolve_new us (env.path2container p)).1),
        containers :=
          some (cs ++ (resolve_new us (env.path2container p)).2) }) ∧
    (env.path_exists p = false → bundle_add env s [.pathItem p] = .ok s) ∧
    (∀ (its : List Item) (s2 : BundleState) (cs2 : List Container),
      bundle_add env s its = .ok s2 → s2.containers = some cs2 →
      bundle_add env s [.listOf its] = .ok s2) ∧
    (∀ (items : List Item) (r : BundleState),
      bundle_add env s items = .ok r → r.backend = s.backend) := by
  obtain ⟨b, u, co⟩ := s
  simp only at hu hc
  subst hu
  subst hc
  refine ⟨?_, ?_, ?_, ?_, ?_, ?_⟩
  · intro hmem
    have hcont : us.contains c.uuid = true := by simp [hmem]
    simp [bundle_add, bundle_add_loop, hcont, hmem]
  · intro hmem
    have hcont : us.contains c.uuid = false := by simp [hmem]
    simp [bundle_add, bundle_add_loop, hcont, hmem]
  · intro hex
    simp [bundle_add, bundle_add_loop, hex, bundle_add_conts_spec]
  · intro hex
    simp [bundle_add, bundle_add_loop, hex]
  · intro its s2 cs2 h hcont2
    obtain ⟨b2, u2, co2⟩ := s2
    simp only at hcont2
    subst hcont2
    simp [bundle_add, bundle_add_loop, h]
  · intro items r h
    exact (bundle_add_backend_aux (sizeOf items) items le_rfl).1 env _ r h

/-- Witness for the amended C2: re-adding an already-present entity returns
the Bundle unchanged, and a novel path-resolved entity is appended with its
id recorded. -/
theorem c2_amended_witness :
    bundle_add emptyEnv ⟨freshBackend, some ["u1"], some [sampleCont]⟩
      [.cont sampleCont] =
      .ok ⟨freshBackend, some ["u1"], some [sampleCont]⟩ :=
  (c2_bundle_add_amended emptyEnv
    ⟨freshBackend, some ["u1"], some [sampleCont]⟩ ["u1"] [sampleCont]
    sampleCont "p0" rfl rfl).1 (by decide)

/-- C10 as stated is false on the code: it says a tuple argument of
`Bundle.add` falls through to the filesystem-path test and is silently
dropped, but `os.path.exists` on a tuple raises `TypeError` in the source
(Python 2 `genericpath.exists` catches only `os.error`), so `Bundle.add`
raises instead of returning with membership unchanged. -/
theorem c10_counterexample :
    bundle_add emptyEnv ⟨freshBackend, some [], some []⟩
      [.tupleOf [.cont sampleCont]] = .error .typeError := by
  simp [bundle_add, bundle_add_loop]

/-- C10 amended: `Bundle.add` recurses only into plain lists, so a tuple
wrapping a container is not treated as a nested collection — it falls
through to the filesystem-path test, where `os.path.exists` raises
`TypeError` on a non-string, so the wrapped container is never added —
while `_CollectionBase.add` recurses into tuples as well and registers the
wrapped container's record with the backend: on the same input the two add
operations produce different memberships (the collection's backend gains the
record; the Bundle raises with nothing registered). -/
theorem c10_tuple_membership_differs :
    collection_add emptyEnv freshBackend [.tupleOf [.cont sampleCont]] =
      .ok ⟨[⟨"u1", "n1", "Sim", "/loc"⟩], []⟩ ∧
    bundle_add emptyEnv ⟨freshBackend, some [], some []⟩
      [.tupleOf [.cont sampleCont]] = .error .typeError := by
  have habs : os_path_abspath "/loc" = "/loc" := by decide
  constructor
  · simp [collection_add, collection_add_loop, add_members, add_member,
      sampleCont, emptyEnv, freshBackend, habs]
  · simp [bundle_add, bundle_add_loop]

end MDS
